import Mathlib

/-!
Verification of the `similaritem` repository: a shingling / MinHash / LSH
document-similarity pipeline (`src/similaritem/utils.py` and the algorithmic
parts of `src/similaritem/main.py`).

Modelling conventions.
Python integers are arbitrary precision, so `Nat` models them directly.
Python floats appear only as small integer ratios and as the similarity
threshold; they are modelled as exact rationals (`ℚ`).  Python's builtin
`hash` is an unspecified deterministic function of its argument; it is modelled
as an explicit function parameter, already reduced to the nonnegative value
`hash(x) mod 2^64` (for any machine-int hash value `h` and nonnegative mask
`m < 2^64`, Python's `h & m` equals `(h mod 2^64) &&& m` on the two's
complement representation, so nothing is lost).  Fallible Python code (raised
exceptions: `KeyError`, `IndexError`, `TypeError`, `ZeroDivisionError`) is
modelled with `Except String`.
-/

namespace Similaritem

/-- `sys.maxsize` on a 64-bit CPython build: `2 ^ 63 - 1`.  It is the value
each MinHash signature slot starts from (`utils.create_min_hash_signature`,
utils.py line 27). -/
def sysMaxsize : Nat := 2 ^ 63 - 1

/-- Modelled from the spec: the constant `utils.L_MAX_32_BIT_INT` is referenced
by `main.py` line 10 (`HASH_BUCKETS = utils.L_MAX_32_BIT_INT`, commented
"largest 32bit unsigned-integer prime") but its definition is missing from the
sources under `src/`; the spec (sections 6 and 9) pins it to 4294967291, the
largest prime below `2 ^ 32`. -/
def L_MAX_32_BIT_INT : Nat := 4294967291

/-- `main.HASH_BUCKETS` (main.py line 10). -/
def HASH_BUCKETS : Nat := L_MAX_32_BIT_INT

/-- `utils.generate_hash_functions` (utils.py lines 34-41).

The source draws `a = random.randint(1, 100)` and `b = random.randint(1, 100)`
in a loop and appends `lambda x: (a * x + b) % hash_buckets` to the result
list.  The randomness is modelled by the parameter `draws`: the list of the
successive `(a, b)` pairs produced by the random generator, one pair per loop
iteration.  A Python lambda captures the enclosing function's local variables
by reference, not by value; every returned closure is called only after the
loop has finished, when `a` and `b` hold the values of the final iteration.
Consequently every returned function applies the FINAL drawn pair, which the
embedding makes explicit: for a nonempty draw list each position holds the
affine function built from `draws.getLast`. -/
def generate_hash_functions (draws : List (Nat × Nat)) (hash_buckets : Nat) :
    List (Nat → Nat) :=
  match draws.getLast? with
  | none => []
  | some ab => draws.map (fun _ => fun x => (ab.1 * x + ab.2) % hash_buckets)

/-- Modelled from the spec: "each function h_i(x) = (a_i·x + b_i) mod M with
a_i, b_i drawn independently" — the family in which position `i` applies its
own draw `(a_i, b_i)`.  This is the family the specification describes; it is
stated here only to be compared against `generate_hash_functions`. -/
def spec_hash_functions (draws : List (Nat × Nat)) (hash_buckets : Nat) :
    List (Nat → Nat) :=
  draws.map (fun ab => fun x => (ab.1 * x + ab.2) % hash_buckets)

/-- `utils.hash_shingles` (utils.py lines 22-23):
`{(hash(shingle) & maxi) for shingle in shingles}`.  The builtin string hash is
the parameter `strhash` (see the header note); the Python set comprehension is
modelled as the list of the same elements — membership, which the claims are
about, is unaffected by deduplication. -/
def hash_shingles (strhash : String → Nat) (shingles : List String)
    (maxi : Nat) : List Nat :=
  shingles.map (fun s => strhash s &&& maxi)

/-- A Python sequence of integers that is either a list or a tuple.  The
distinction matters because `hash()` accepts a tuple but raises `TypeError` on
a list, and `utils.create_min_hash_signature` returns a list for an empty
shingle set and a tuple otherwise. -/
structure PySeq where
  isTuple : Bool
  vals : List Nat
deriving DecidableEq

/-- `utils.create_min_hash_signature` (utils.py lines 26-31).

`signature` starts as the Python list `[sys.maxsize] * len(hash_funcs)`; each
iteration of the loop over the hashed shingles replaces it with the tuple
`tuple([min(hfunc(h), val) for hfunc, val in zip(hash_funcs, signature)])`.
Hence the returned value is a tuple precisely when the hashed-shingle set is
nonempty, recorded in `isTuple`.  The Python set iterates its elements in some
order; the fold takes the list order as that order (the claims proved below
are insensitive to it). -/
def create_min_hash_signature (hashed_shingles : List Nat)
    (hash_funcs : List (Nat → Nat)) : PySeq :=
  { isTuple := !hashed_shingles.isEmpty
    vals := hashed_shingles.foldl
      (fun signature h =>
        List.zipWith (fun hfunc val => min (hfunc h) val) hash_funcs signature)
      (List.replicate hash_funcs.length sysMaxsize) }

/-- The inner loop of `utils.check_signature_simularity` (utils.py lines
92-96): `for i in range(sig_len): if sig_a[i] == sig_b[i]: equal_positions += 1`
with `sig_len = len(sig_a)`.  The loop bound comes from `sig_a` alone, so
indexing `sig_b` raises `IndexError` exactly when `sig_b` is shorter than
`sig_a`; entries of `sig_b` beyond `len(sig_a)` are never read. -/
def count_equal : List Nat → List Nat → Except String Nat
  | [], _ => .ok 0
  | _ :: _, [] => .error ("IndexError")
  | a :: xs, b :: ys =>
      (count_equal xs ys).map (fun c => if a = b then c + 1 else c)

/-- Python dictionary access `document_signatures[doc_id]`: the signature map
is modelled as an insertion-ordered association list (as Python dicts are); a
missing key raises `KeyError`. -/
def pylookup (sigs : List (String × PySeq)) (k : String) : Except String PySeq :=
  match sigs.find? (fun p => p.1 == k) with
  | some p => .ok p.2
  | none => .error ("KeyError")

/-- `utils.check_signature_simularity` (utils.py lines 87-100).  For each
candidate pair: look up both signatures, count the agreeing positions
(`count_equal`), divide by `len(sig_a)` — a `ZeroDivisionError` when that
length is 0 — and append the bare pair (nothing else is appended) when the
fraction reaches `threshold`. -/
def check_signature_simularity (candidate_pairs : List (String × String))
    (document_signatures : List (String × PySeq)) (threshold : ℚ) :
    Except String (List (String × String)) :=
  match candidate_pairs with
  | [] => .ok []
  | p :: rest => do
      let sig_a ← pylookup document_signatures p.1
      let sig_b ← pylookup document_signatures p.2
      let equal_positions ← count_equal sig_a.vals sig_b.vals
      if sig_a.vals.length = 0 then .error ("ZeroDivisionError")
      else do
        let tail ← check_signature_simularity rest document_signatures threshold
        pure (if ((equal_positions : ℚ) / (sig_a.vals.length : ℚ)) ≥ threshold
              then p :: tail else tail)

/-- All pairs `(l[i], l[j])` with `i < j`, in the order of the double loop
`for i in range(len(l)): for j in range(i + 1, len(l))` used both by
`main.compare_sets_signature` (main.py lines 134-137) and by the candidate
generation of `utils.create_lsh_candidate_pairs` (utils.py lines 79-82). -/
def pairsOf {α : Type} : List α → List (α × α)
  | [] => []
  | x :: xs => xs.map (fun y => (x, y)) ++ pairsOf xs

/-- Modelled from the spec (and `main.compare_sets_signature`, main.py lines
130-139): `main` calls `utils.check_signature_similarity`, a name missing from
the sources under `src/` (utils.py spells the function
`check_signature_simularity`); the spec (section 4.5) describes a single
signature-agreement comparator used both at threshold 0 and with a real
threshold, so the missing name is modelled as that function.
`compare_sets_signature` scores every key pair at threshold 0. -/
def compare_sets_signature (document_signatures : List (String × PySeq)) :
    Except String (List (String × String)) :=
  check_signature_simularity (pairsOf (document_signatures.map Prod.fst))
    document_signatures 0

/-- Python `hash(signature[band * n_rows : (band + 1) * n_rows]) & hash_buckets`
from `utils.create_lsh_candidate_pairs` (utils.py line 71): slicing a tuple
yields a tuple, which the builtin `hash` (modelled by `pyhash`, see the header
note) accepts; slicing a list yields a list, on which `hash` raises
`TypeError`. -/
def band_bucket (pyhash : List Nat → Nat) (s : PySeq)
    (band n_rows hash_buckets : Nat) : Except String Nat :=
  if s.isTuple then
    .ok (pyhash ((s.vals.drop (band * n_rows)).take n_rows) &&& hash_buckets)
  else .error ("TypeError: unhashable type: list")

/-- `buckets_in_bands[band].setdefault(str(bucket), []).append(doc_id)`
(utils.py line 72) on an insertion-ordered association list: append `d` to the
list stored at key `k`, creating the key at the end when absent.  Python keys
the dictionary by `str(bucket)`; `str` is injective on naturals, so keying by
the number itself is an equivalent dictionary. -/
def add_to_bucket (m : List (Nat × List String)) (k : Nat) (d : String) :
    List (Nat × List String) :=
  match m with
  | [] => [(k, [d])]
  | kv :: rest =>
      if kv.1 = k then (kv.1, kv.2 ++ [d]) :: rest
      else kv :: add_to_bucket rest k d

/-- The bucket dictionary `utils.create_lsh_candidate_pairs` (utils.py lines
68-72) builds for one band.  The source's double loop runs document-major and
band-minor, but each band's dictionary is updated independently of the others,
so per band it is the fold of the documents in map order. -/
def build_band_buckets (pyhash : List Nat → Nat)
    (document_signatures : List (String × PySeq))
    (band n_rows hash_buckets : Nat) (acc : List (Nat × List String)) :
    Except String (List (Nat × List String)) :=
  match document_signatures with
  | [] => .ok acc
  | p :: rest => do
      let bucket ← band_bucket pyhash p.2 band n_rows hash_buckets
      build_band_buckets pyhash rest band n_rows hash_buckets
        (add_to_bucket acc bucket p.1)

/-- The bucket dictionaries of all bands `0, …, n_bands - 1` (the outer
structure `buckets_in_bands` of utils.py line 68), in band order. -/
def build_all_band_buckets (pyhash : List Nat → Nat)
    (document_signatures : List (String × PySeq)) (n_rows hash_buckets : Nat) :
    List Nat → Except String (List (List (Nat × List String)))
  | [] => .ok []
  | band :: bands => do
      let m ← build_band_buckets pyhash document_signatures band n_rows
        hash_buckets []
      let ms ← build_all_band_buckets pyhash document_signatures n_rows
        hash_buckets bands
      pure (m :: ms)

/-- Python `set.add` on a set modelled as a duplicate-free list: append when
absent. -/
def set_add {α : Type} [DecidableEq α] (s : List α) (x : α) : List α :=
  if x ∈ s then s else s ++ [x]

/-- `utils.create_lsh_candidate_pairs` (utils.py lines 67-84): hash every
band-slice of every signature into per-band buckets, then add to the candidate
set every in-order pair from every bucket list holding at least two documents
(`len(candidates) > 1`). -/
def create_lsh_candidate_pairs (pyhash : List Nat → Nat)
    (document_signatures : List (String × PySeq))
    (n_rows n_bands hash_buckets : Nat) :
    Except String (List (String × String)) := do
  let bandMaps ← build_all_band_buckets pyhash document_signatures n_rows
    hash_buckets (List.range n_bands)
  let candidateLists := (bandMaps.map
      (fun m => (m.filter (fun kv => 1 < kv.2.length)).map (fun kv => kv.2))).flatten
  pure (candidateLists.foldl (fun cps l => (pairsOf l).foldl set_add cps) [])

/-- The S-curve acceptance test of `utils.compute_index_measures`: in
high-recall mode the source tests `(1.0 / b) ** (1.0 / r) < threshold`, in
high-precision mode `... > threshold`.  The test is embedded in the equivalent
power form `1 / b < threshold ^ r` (resp. `threshold ^ r < 1 / b`): the loop
only evaluates it at `b ≥ 2`, `r ≥ 1`, where for a nonnegative threshold the
map `y ↦ y ^ r` is strictly monotone on nonnegatives, so the comparisons
agree; this replaces inexact float exponentiation by exact rational
arithmetic. -/
def cim_pred (high_recall : Bool) (b r : Nat) (threshold : ℚ) : Prop :=
  match high_recall with
  | true => (1 : ℚ) / (b : ℚ) < threshold ^ r
  | false => threshold ^ r < (1 : ℚ) / (b : ℚ)

/-- The `while` loop of `utils.compute_index_measures` (utils.py lines 48-62),
one recursive call per iteration.  `fuel` only bounds the iteration count:
every iteration strictly decreases `(n + 2 - b) * (n + 2) + (n + 1 - r)`, and
`compute_index_measures` passes `(n + 2) * (n + 2)`, which exceeds that
measure's starting value, so the `fuel = 0` branch is never reached from
`compute_index_measures` (see `cim_loop_fuel_enough` below). -/
def cim_loop (n : Nat) (threshold : ℚ) (high_recall : Bool) :
    Nat → Nat → Nat → Option (Nat × Nat) → Option (Nat × Nat)
  | 0, _, _, acc => acc
  | fuel + 1, b, r, acc =>
    if b ≤ n then
      let b' := if n ≤ r then b + 1 else b
      let r' := if n ≤ r then 1 else r
      if b' * r' = n then
        if high_recall then
          if (1 : ℚ) / (b' : ℚ) < threshold ^ r' then some (b', r')
          else cim_loop n threshold high_recall fuel b' (r' + 1) acc
        else
          if threshold ^ r' < (1 : ℚ) / (b' : ℚ) then
            cim_loop n threshold high_recall fuel b' (r' + 1) (some (b', r'))
          else cim_loop n threshold high_recall fuel b' (r' + 1) acc
      else cim_loop n threshold high_recall fuel b' (r' + 1) acc
    else acc

/-- `utils.compute_index_measures` (utils.py lines 44-64): scan band counts
`b = 2, 3, …` and row counts `r = 1, 2, …` for factorizations `b * r = n`; in
high-recall mode stop at the first S-curve estimate below `threshold`, in
high-precision mode remember the last factorization whose estimate exceeds it.
When nothing is found the source returns its two variables still holding the
sentinel `(None, None)`; the function body contains no `raise`. -/
def compute_index_measures (signature_size : Nat) (threshold : ℚ)
    (high_recall : Bool := true) : Option Nat × Option Nat :=
  match cim_loop signature_size threshold high_recall
      ((signature_size + 2) * (signature_size + 2)) 2 1 none with
  | none => (none, none)
  | some br => (some br.1, some br.2)

/-- Newline and tab to space: the first two `re.sub` calls of
`utils.create_shingles_from_file` (utils.py lines 12-13). -/
def mapWs (c : Char) : Char := if c = '\n' ∨ c = '\t' then ' ' else c

/-- `re.sub('[ ]{2,}', ' ', s)` (utils.py line 14): every maximal run of two
or more spaces becomes a single space, i.e. a space directly following a space
is dropped.  The Boolean state records whether the previous kept character was
a space. -/
def collapse_aux (prevSpace : Bool) : List Char → List Char
  | [] => []
  | c :: rest =>
      if c = ' ' then
        if prevSpace then collapse_aux true rest
        else ' ' :: collapse_aux true rest
      else c :: collapse_aux false rest

/-- Whitespace normalization of one working line (utils.py lines 12-14). -/
def normalize (s : List Char) : List Char := collapse_aux false (s.map mapWs)

/-- The slices `working_line[i : i + shingle_size]` for
`i in range(len(working_line) - (shingle_size - 1))` (utils.py lines 15-16).
Python's empty range for a nonpositive bound coincides with `Nat` truncated
subtraction. -/
def windows (k : Nat) (s : List Char) : List (List Char) :=
  (List.range (s.length - (k - 1))).map (fun i => (s.drop i).take k)

/-- Python `working_line[-(shingle_size - 1):]` (utils.py line 17) for
`m = shingle_size - 1 ≥ 1`: the last `m` characters.  (For shingle size 1 the
slice is `s[-0:] = s[0:]`, the whole line.) -/
def py_suffix (s : List Char) (m : Nat) : List Char :=
  if m = 0 then s else s.drop (s.length - m)

/-- `utils.create_shingles_from_file` (utils.py lines 6-19).  The file is the
list of lines Python iteration yields (each keeping its trailing newline); the
shingle set is a duplicate-free list.  The state is (shingles, left_over).
The source assigns `left_over` INSIDE the window loop (line 17) — the assigned
value does not depend on the loop index — so `left_over` changes exactly when
that loop runs at least once, i.e. when the normalized working line has length
at least `shingle_size`; otherwise it keeps its previous value. -/
def create_shingles_from_file (lines : List (List Char)) (shingle_size : Nat) :
    List (List Char) :=
  (lines.foldl
    (fun st line =>
      let working_line := normalize (st.2 ++ line)
      if shingle_size ≤ working_line.length then
        ((windows shingle_size working_line).foldl set_add st.1,
         py_suffix working_line (shingle_size - 1))
      else (st.1, st.2))
    (([] : List (List Char)), ([] : List Char))).1

/-! ## Claim C1 -/

/-- C1: refuted by the source — `generate_hash_functions` does not give each
position its own coefficient pair: Python's reference-captured closures make
every returned function apply the final draw.  With the draws
`(a_0, b_0) = (1, 1)`, `(a_1, b_1) = (2, 2)` (both within `randint(1, 100)`
range) and modulus 101, the function at position 0 maps 0 to
`(2 * 0 + 2) % 101 = 2`, whereas a family applying its own pair at each
position (`spec_hash_functions`, as the claim states) maps 0 to 1. -/
theorem claim_C1_all_functions_use_last_draw :
    ((Similaritem.generate_hash_functions [(1, 1), (2, 2)] 101).map
        (fun f => f 0) = [2, 2])
    ∧ ((Similaritem.spec_hash_functions [(1, 1), (2, 2)] 101).map
        (fun f => f 0) = [1, 2]) := by
  exact ⟨rfl, rfl⟩

/-! ## Claim C3 -/

/-- C3: refuted by the source — with the file lines "a\n", "bcd\n" and shingle
size 3, the whole normalized text is "a bcd ", whose length-3 substrings
include " bc"; but the first working line "a " is shorter than 3, so the
window loop never runs, `left_over` keeps its initial empty value, and the
cross-boundary shingles "a b" and " bc" are missing from the returned set,
which is exactly the two windows of the second line. -/
theorem claim_C3_short_line_carry_lost :
    (Similaritem.create_shingles_from_file
        [['a', '\n'], ['b', 'c', 'd', '\n']] 3
      = [['b', 'c', 'd'], ['c', 'd', ' ']])
    ∧ [' ', 'b', 'c'] ∈ Similaritem.windows 3
        (Similaritem.normalize ([['a', '\n'], ['b', 'c', 'd', '\n']].flatten))
    ∧ [' ', 'b', 'c'] ∉ Similaritem.create_shingles_from_file
        [['a', '\n'], ['b', 'c', 'd', '\n']] 3 := by
  refine ⟨rfl, ?_, ?_⟩ <;> decide

/-! ## Claim C4 -/

/-- C4 counterexample: at signature size 4 with threshold 0 in high-recall
mode no factorization passes the S-curve test (nothing is below 0), and the
band/row search returns the sentinel pair `(None, None)` — the source's only
`return` hands back the two possibly-`None` locals and the function contains
no `raise`, so no explicit named failure reaches the caller. -/
theorem claim_C4_counterexample :
    Similaritem.compute_index_measures 4 0 true = (none, none) := by
  with_unfolding_all decide

/-- The high-recall branch of the S-curve test, unfolded. -/
theorem cim_pred_true (b r : Nat) (θ : ℚ) :
    Similaritem.cim_pred true b r θ ↔ (1 : ℚ) / (b : ℚ) < θ ^ r := Iff.rfl

/-- The high-precision branch of the S-curve test, unfolded. -/
theorem cim_pred_false (b r : Nat) (θ : ℚ) :
    Similaritem.cim_pred false b r θ ↔ θ ^ r < (1 : ℚ) / (b : ℚ) := Iff.rfl

/-- The loop of `compute_index_measures` stores a pair only when it is a
factorization of `n` accepted by the mode's predicate; so when no
factorization is accepted, the accumulator stays `none`, whatever the fuel. -/
theorem cim_loop_none_of_no_pred (n : Nat) (θ : ℚ) (mode : Bool)
    (h : ∀ b r : Nat, b * r = n → ¬ Similaritem.cim_pred mode b r θ) :
    ∀ fuel b r, Similaritem.cim_loop n θ mode fuel b r none = none := by
  intro fuel
  induction fuel with
  | zero => intro b r; rfl
  | succ fuel ih =>
      intro b r
      simp only [Similaritem.cim_loop]
      by_cases hb : b ≤ n
      · rw [if_pos hb]
        by_cases hf : (if n ≤ r then b + 1 else b) * (if n ≤ r then 1 else r) = n
        · rw [if_pos hf]
          cases mode with
          | true =>
              rw [if_pos rfl]
              rw [if_neg ((cim_pred_true _ _ θ).not.mp (h _ _ hf))]
              exact ih _ _
          | false =>
              rw [if_neg (Bool.false_ne_true)]
              rw [if_neg ((cim_pred_false _ _ θ).not.mp (h _ _ hf))]
              exact ih _ _
        · rw [if_neg hf]
          exact ih _ _
      · rw [if_neg hb]

/-- C4 amended: whenever no factorization `b * r = signature_size` satisfies
the chosen optimization mode's S-curve predicate, `compute_index_measures`
returns the sentinel pair `(None, None)` to the caller — the function contains
no `raise`, so no explicit named failure is produced and the caller receives
nulls. -/
theorem claim_C4_amended (n : Nat) (θ : ℚ) (mode : Bool)
    (h : ∀ b r : Nat, b * r = n → ¬ Similaritem.cim_pred mode b r θ) :
    Similaritem.compute_index_measures n θ mode = (none, none) := by
  unfold Similaritem.compute_index_measures
  rw [cim_loop_none_of_no_pred n θ mode h]

/-- Witness for the amended C4: at signature size 2 with threshold 0 in
high-recall mode no factorization has an S-curve estimate below 0, and the
search indeed returns the sentinel pair. -/
theorem claim_C4_amended_witness :
    Similaritem.compute_index_measures 2 0 true = (none, none) := by
  refine claim_C4_amended 2 0 true ?_
  intro b r hbr
  have hr0 : r ≠ 0 := by rintro rfl; omega
  rw [cim_pred_true, zero_pow hr0]
  exact not_lt.mpr (div_nonneg zero_le_one (Nat.cast_nonneg b))

/-- Any pair the loop hands back is a factorization of `n` accepted by the
mode's predicate, provided any pair already stored is. -/
theorem cim_loop_sound (n : Nat) (θ : ℚ) (mode : Bool) :
    ∀ fuel b r acc (q : Nat × Nat),
      (∀ p : Nat × Nat, acc = some p →
        p.1 * p.2 = n ∧ Similaritem.cim_pred mode p.1 p.2 θ) →
      Similaritem.cim_loop n θ mode fuel b r acc = some q →
      q.1 * q.2 = n ∧ Similaritem.cim_pred mode q.1 q.2 θ := by
  intro fuel
  induction fuel with
  | zero => intro b r acc q hacc hq; exact hacc q hq
  | succ fuel ih =>
      intro b r acc q hacc hq
      simp only [Similaritem.cim_loop] at hq
      by_cases hb : b ≤ n
      · rw [if_pos hb] at hq
        by_cases hnr : n ≤ r
        all_goals
          first
            | simp only [if_pos hnr] at hq
            | simp only [if_neg hnr] at hq
        · by_cases hf : (b + 1) * 1 = n
          · rw [if_pos hf] at hq
            cases mode with
            | true =>
                rw [if_pos rfl] at hq
                by_cases hc : (1 : ℚ) / ((b + 1 : Nat) : ℚ) < θ ^ (1 : Nat)
                · rw [if_pos hc] at hq
                  obtain rfl : (b + 1, 1) = q := Option.some_injective _ hq
                  exact ⟨hf, (cim_pred_true _ _ θ).mpr hc⟩
                · rw [if_neg hc] at hq
                  exact ih _ _ _ _ hacc hq
            | false =>
                rw [if_neg Bool.false_ne_true] at hq
                by_cases hc : θ ^ (1 : Nat) < (1 : ℚ) / ((b + 1 : Nat) : ℚ)
                · rw [if_pos hc] at hq
                  refine ih _ _ _ _ ?_ hq
                  intro p hp
                  obtain rfl : (b + 1, 1) = p := Option.some_injective _ hp
                  exact ⟨hf, (cim_pred_false _ _ θ).mpr hc⟩
                · rw [if_neg hc] at hq
                  exact ih _ _ _ _ hacc hq
          · rw [if_neg hf] at hq
            exact ih _ _ _ _ hacc hq
        · by_cases hf : b * r = n
          · rw [if_pos hf] at hq
            cases mode with
            | true =>
                rw [if_pos rfl] at hq
                by_cases hc : (1 : ℚ) / (b : ℚ) < θ ^ r
                · rw [if_pos hc] at hq
                  obtain rfl : (b, r) = q := Option.some_injective _ hq
                  exact ⟨hf, (cim_pred_true _ _ θ).mpr hc⟩
                · rw [if_neg hc] at hq
                  exact ih _ _ _ _ hacc hq
            | false =>
                rw [if_neg Bool.false_ne_true] at hq
                by_cases hc : θ ^ r < (1 : ℚ) / (b : ℚ)
                · rw [if_pos hc] at hq
                  refine ih _ _ _ _ ?_ hq
                  intro p hp
                  obtain rfl : (b, r) = p := Option.some_injective _ hp
                  exact ⟨hf, (cim_pred_false _ _ θ).mpr hc⟩
                · rw [if_neg hc] at hq
                  exact ih _ _ _ _ hacc hq
          · rw [if_neg hf] at hq
            exact ih _ _ _ _ hacc hq
      · rw [if_neg hb] at hq
        exact hacc q hq

/-- Once the accumulator holds a pair, the loop returns a pair. -/
theorem cim_loop_isSome_of_some (n : Nat) (θ : ℚ) (mode : Bool) :
    ∀ fuel b r (p : Nat × Nat),
      (Similaritem.cim_loop n θ mode fuel b r (some p)).isSome := by
  intro fuel
  induction fuel with
  | zero => intro b r p; rfl
  | succ fuel ih =>
      intro b r p
      simp only [Similaritem.cim_loop]
      by_cases hb : b ≤ n
      · rw [if_pos hb]
        by_cases hnr : n ≤ r
        all_goals
          first
            | simp only [if_pos hnr]
            | simp only [if_neg hnr]
        · by_cases hf : (b + 1) * 1 = n
          · rw [if_pos hf]
            cases mode with
            | true =>
                rw [if_pos rfl]
                by_cases hc : (1 : ℚ) / ((b + 1 : Nat) : ℚ) < θ ^ (1 : Nat)
                · rw [if_pos hc]; rfl
                · rw [if_neg hc]; exact ih _ _ _
            | false =>
                rw [if_neg Bool.false_ne_true]
                by_cases hc : θ ^ (1 : Nat) < (1 : ℚ) / ((b + 1 : Nat) : ℚ)
                · rw [if_pos hc]; exact ih _ _ _
                · rw [if_neg hc]; exact ih _ _ _
          · rw [if_neg hf]; exact ih _ _ _
        · by_cases hf : b * r = n
          · rw [if_pos hf]
            cases mode with
            | true =>
                rw [if_pos rfl]
                by_cases hc : (1 : ℚ) / (b : ℚ) < θ ^ r
                · rw [if_pos hc]; rfl
                · rw [if_neg hc]; exact ih _ _ _
            | false =>
                rw [if_neg Bool.false_ne_true]
                by_cases hc : θ ^ r < (1 : ℚ) / (b : ℚ)
                · rw [if_pos hc]; exact ih _ _ _
                · rw [if_neg hc]; exact ih _ _ _
          · rw [if_neg hf]; exact ih _ _ _
      · rw [if_neg hb]; rfl

/-- When the trivial factorization `(n, 1)` passes the mode's predicate and
`n ≥ 2`, the scan cannot come back empty: from any state that has not yet
passed the check of the pair `(n, 1)` — i.e. `b < n`, or `b = n` with
`r = 1` — and with fuel at least the loop's decreasing measure, the loop
returns a pair. -/
theorem cim_loop_reaches_trivial (n : Nat) (θ : ℚ) (mode : Bool) (hn : 2 ≤ n)
    (htriv : Similaritem.cim_pred mode n 1 θ) :
    ∀ fuel b r acc, (n + 2 - b) * (n + 2) + (n + 1 - r) ≤ fuel → 2 ≤ b →
      (b < n ∨ (b = n ∧ r = 1)) →
      (Similaritem.cim_loop n θ mode fuel b r acc).isSome := by
  intro fuel
  induction fuel with
  | zero =>
      intro b r acc hfuel hb2 hcond
      exfalso
      have hb : b ≤ n := by rcases hcond with h | ⟨h, _⟩ <;> omega
      have h2 : 2 ≤ n + 2 - b := by omega
      have h3 : 2 * (n + 2) ≤ (n + 2 - b) * (n + 2) :=
        Nat.mul_le_mul_right _ h2
      omega
  | succ fuel ih =>
      intro b r acc hfuel hb2 hcond
      have hb : b ≤ n := by rcases hcond with h | ⟨h, _⟩ <;> omega
      simp only [Similaritem.cim_loop]
      rw [if_pos hb]
      by_cases hnr : n ≤ r
      · have hblt : b < n := by
          rcases hcond with h | ⟨rfl, hr1⟩
          · exact h
          · omega
        simp only [if_pos hnr]
        by_cases hf : (b + 1) * 1 = n
        · have hbn : b + 1 = n := by omega
          rw [if_pos hf]
          cases mode with
          | true =>
              rw [if_pos rfl, if_pos (by rw [hbn]; exact (cim_pred_true n 1 θ).mp htriv)]
              rfl
          | false =>
              rw [if_neg (Bool.false_ne_true),
                if_pos (by rw [hbn]; exact (cim_pred_false n 1 θ).mp htriv)]
              exact cim_loop_isSome_of_some n θ false _ _ _ _
        · rw [if_neg hf]
          have hblt1 : b + 1 < n := by omega
          refine ih _ _ _ ?_ (by omega) (Or.inl hblt1)
          have hsp : n + 2 - b = (n + 1 - b) + 1 := by omega
          rw [hsp, Nat.add_mul, one_mul] at hfuel
          have hsp2 : n + 2 - (b + 1) = n + 1 - b := by omega
          rw [hsp2]
          omega
      · simp only [if_neg hnr]
        have hfuel' : (n + 2 - b) * (n + 2) + (n + 1 - (r + 1)) ≤ fuel := by
          omega
        by_cases hf : b * r = n
        · rw [if_pos hf]
          rcases hcond with hblt | ⟨rfl, rfl⟩
          · cases mode with
            | true =>
                rw [if_pos rfl]
                by_cases hc : (1 : ℚ) / (b : ℚ) < θ ^ r
                · rw [if_pos hc]; rfl
                · rw [if_neg hc]
                  exact ih _ _ _ hfuel' hb2 (Or.inl hblt)
            | false =>
                rw [if_neg (Bool.false_ne_true)]
                by_cases hc : θ ^ r < (1 : ℚ) / (b : ℚ)
                · rw [if_pos hc]
                  exact cim_loop_isSome_of_some n θ false _ _ _ _
                · rw [if_neg hc]
                  exact ih _ _ _ hfuel' hb2 (Or.inl hblt)
          · cases mode with
            | true =>
                rw [if_pos rfl, if_pos ((cim_pred_true b 1 θ).mp htriv)]
                rfl
            | false =>
                rw [if_neg (Bool.false_ne_true),
                  if_pos ((cim_pred_false b 1 θ).mp htriv)]
                exact cim_loop_isSome_of_some _ θ false _ _ _ _
        · rw [if_neg hf]
          rcases hcond with hblt | ⟨rfl, rfl⟩
          · exact ih _ _ _ hfuel' hb2 (Or.inl hblt)
          · exact absurd (Nat.mul_one b) hf

/-- C6 amended: for every signature size `n ≥ 2`, threshold and mode, if the
trivial factorization `b = n, r = 1` satisfies the mode's S-curve predicate
then `compute_index_measures` returns a valid decomposition — a non-null pair
whose product is `n` and which itself satisfies the predicate.  (The claim's
original range `n ≥ 1` fails: the scan starts at `b = 2` and never examines
`b = 1`, see the counterexample.) -/
theorem claim_C6_amended (n : Nat) (θ : ℚ) (mode : Bool) (hn : 2 ≤ n)
    (htriv : Similaritem.cim_pred mode n 1 θ) :
    ∃ b r : Nat, Similaritem.compute_index_measures n θ mode = (some b, some r)
      ∧ b * r = n ∧ Similaritem.cim_pred mode b r θ := by
  have hfuel : (n + 2 - 2) * (n + 2) + (n + 1 - 1) ≤ (n + 2) * (n + 2) := by
    have hexp : (n + 2) * (n + 2) = n * (n + 2) + 2 * (n + 2) := by ring
    have hsub : n + 2 - 2 = n := by omega
    rw [hsub, hexp]
    omega
  have hcond : 2 < n ∨ (2 = n ∧ 1 = 1) := by omega
  have hsome := cim_loop_reaches_trivial n θ mode hn htriv
    ((n + 2) * (n + 2)) 2 1 none hfuel (le_refl 2) hcond
  obtain ⟨q, hq⟩ := Option.isSome_iff_exists.mp hsome
  have hprops := cim_loop_sound n θ mode ((n + 2) * (n + 2)) 2 1 none q
    (by intro p hp; exact absurd hp (Option.noConfusion)) hq
  refine ⟨q.1, q.2, ?_, hprops.1, hprops.2⟩
  unfold Similaritem.compute_index_measures
  rw [hq]

/-- Witness for the amended C6 at signature size 4, threshold 7/10,
high-recall mode: the trivial estimate is 1/4 < 7/10, and the search returns
the decomposition (4, 1). -/
theorem claim_C6_amended_witness :
    Similaritem.cim_pred true 4 1 (7 / 10)
    ∧ ∃ b r : Nat, Similaritem.compute_index_measures 4 (7 / 10) true
        = (some b, some r) ∧ b * r = 4 ∧ Similaritem.cim_pred true b r (7 / 10) := by
  have htriv : Similaritem.cim_pred true 4 1 (7 / 10) := by
    rw [cim_pred_true]
    with_unfolding_all decide
  exact ⟨htriv, claim_C6_amended 4 (7 / 10) true (by decide) htriv⟩

/-! ## Claim C5 -/

/-- C5: refuted by the source — `check_signature_simularity` appends the bare
candidate pair (utils.py line 98), never a (pair, score) triple.  With two
identical one-entry signatures, the threshold-0 scoring of all key pairs
returns `[("A", "B")]` and the threshold-0.8 filtering of an explicit
candidate list likewise returns `[("A", "B")]`: the elements carry no score,
although `main.py` (lines 40-42, 56-58, 69-71) consumes every element as
`(pair, score)` via `pair[0][0]`, `pair[0][1]`, `pair[1]`. -/
theorem claim_C5_comparator_returns_bare_pairs :
    (Similaritem.compare_sets_signature
        [("A", ⟨true, [7]⟩), ("B", ⟨true, [7]⟩)] = .ok [("A", "B")])
    ∧ (Similaritem.check_signature_simularity [("A", "B")]
        [("A", ⟨true, [7]⟩), ("B", ⟨true, [7]⟩)] (8 / 10) = .ok [("A", "B")]) := by
  constructor <;> with_unfolding_all rfl

/-! ## Claim C6 -/

/-- C6 counterexample: at signature size 1 (allowed by the claim's `n ≥ 1`)
with threshold 4/5 in high-precision mode, the trivial factorization
`b = 1, r = 1` satisfies the mode's predicate — its S-curve estimate is
`(1/1)^(1/1) = 1 > 4/5` — yet the search returns `(None, None)`: the scan
starts at `b = 2` and never examines `b = 1`, so for `signature_size = 1` the
loop body never runs at all. -/
theorem claim_C6_counterexample :
    Similaritem.cim_pred false 1 1 (4 / 5)
    ∧ Similaritem.compute_index_measures 1 (4 / 5) false = (none, none) := by
  constructor
  · show (4 / 5 : ℚ) ^ (1 : Nat) < 1 / 1
    norm_num
  · with_unfolding_all decide

/-! ## Claim C9 -/

/-- Both components of an ordered pair produced by the double loop are list
members. -/
theorem mem_pairsOf_imp {α : Type} {a b : α} :
    ∀ {l : List α}, (a, b) ∈ Similaritem.pairsOf l → a ∈ l ∧ b ∈ l := by
  intro l
  induction l with
  | nil => intro h; simp [Similaritem.pairsOf] at h
  | cons x xs ih =>
      intro h
      simp only [Similaritem.pairsOf, List.mem_append] at h
      rcases h with h | h
      · rcases List.mem_map.mp h with ⟨y, hy, hxy⟩
        injection hxy with h1 h2
        rw [← h1, ← h2]
        exact ⟨List.mem_cons_self x xs, List.mem_cons_of_mem x hy⟩
      · obtain ⟨ha, hb⟩ := ih h
        exact ⟨List.mem_cons_of_mem x ha, List.mem_cons_of_mem x hb⟩

/-- The double-loop pairs of a sublist are pairs of the full list. -/
theorem pairsOf_mono {α : Type} {l₁ l₂ : List α} (h : l₁.Sublist l₂) :
    ∀ p ∈ Similaritem.pairsOf l₁, p ∈ Similaritem.pairsOf l₂ := by
  induction h with
  | slnil => intro p hp; exact hp
  | cons a _ ih =>
      intro p hp
      simp only [Similaritem.pairsOf, List.mem_append]
      exact Or.inr (ih p hp)
  | cons₂ a h ih =>
      intro p hp
      simp only [Similaritem.pairsOf, List.mem_append] at hp ⊢
      rcases hp with hp | hp
      · rcases List.mem_map.mp hp with ⟨y, hy, hxy⟩
        exact Or.inl (List.mem_map.mpr ⟨y, h.subset hy, hxy⟩)
      · exact Or.inr (ih p hp)

/-- Over a duplicate-free list, the double loop produces each unordered pair
in one orientation only. -/
theorem pairsOf_asymm {α : Type} {a b : α} :
    ∀ {l : List α}, l.Nodup → (a, b) ∈ Similaritem.pairsOf l →
      (b, a) ∉ Similaritem.pairsOf l := by
  intro l
  induction l with
  | nil => intro _ h; simp [Similaritem.pairsOf] at h
  | cons x xs ih =>
      intro hnd hab hba
      obtain ⟨hx, hxs⟩ := List.nodup_cons.mp hnd
      simp only [Similaritem.pairsOf, List.mem_append] at hab hba
      rcases hab with hab | hab
      · rcases List.mem_map.mp hab with ⟨y, hy, hxy⟩
        cases hxy
        rcases hba with hba | hba
        · rcases List.mem_map.mp hba with ⟨z, hz, hxz⟩
          injection hxz with h1 h2
          exact hx (h1 ▸ hy)
        · exact hx (mem_pairsOf_imp hba).2
      · rcases hba with hba | hba
        · rcases List.mem_map.mp hba with ⟨z, hz, hxz⟩
          injection hxz with h1 h2
          exact hx (h1 ▸ (mem_pairsOf_imp hab).2)
        · exact ih hxs hab hba

/-- Membership after a `set.add` step. -/
theorem mem_set_add {α : Type} [DecidableEq α] (s : List α) (x y : α) :
    y ∈ Similaritem.set_add s x ↔ y ∈ s ∨ y = x := by
  unfold Similaritem.set_add
  by_cases hx : x ∈ s
  · rw [if_pos hx]
    constructor
    · exact Or.inl
    · rintro (h | rfl)
      · exact h
      · exact hx
  · rw [if_neg hx]
    simp

/-- A `set.add` step keeps the set duplicate-free. -/
theorem set_add_nodup {α : Type} [DecidableEq α] (s : List α) (x : α)
    (h : s.Nodup) : (Similaritem.set_add s x).Nodup := by
  unfold Similaritem.set_add
  by_cases hx : x ∈ s
  · rwa [if_pos hx]
  · rw [if_neg hx, List.nodup_append]
    refine ⟨h, List.nodup_singleton x, ?_⟩
    intro a ha hax
    rcases List.mem_singleton.mp hax with rfl
    exact hx ha

/-- Folding `set.add` keeps the set duplicate-free. -/
theorem foldl_set_add_nodup {α : Type} [DecidableEq α] :
    ∀ (l s : List α), s.Nodup → (l.foldl Similaritem.set_add s).Nodup := by
  intro l
  induction l with
  | nil => intro s h; exact h
  | cons x xs ih => intro s h; exact ih _ (set_add_nodup s x h)

/-- Everything in a fold of `set.add` steps was present before or was added. -/
theorem mem_foldl_set_add {α : Type} [DecidableEq α] :
    ∀ (l s : List α) (y : α),
      y ∈ l.foldl Similaritem.set_add s → y ∈ s ∨ y ∈ l := by
  intro l
  induction l with
  | nil => intro s y h; exact Or.inl h
  | cons x xs ih =>
      intro s y h
      rcases ih _ y h with h' | h'
      · rcases (mem_set_add s x y).mp h' with h'' | rfl
        · exact Or.inl h''
        · exact Or.inr (List.mem_cons_self _ _)
      · exact Or.inr (List.mem_cons_of_mem _ h')

/-- The candidate-set fold over bucket lists keeps the set duplicate-free. -/
theorem candidate_fold_nodup {α : Type} [DecidableEq α] :
    ∀ (ls : List (List α)) (s : List (α × α)), s.Nodup →
      (ls.foldl (fun cps l =>
        (Similaritem.pairsOf l).foldl Similaritem.set_add cps) s).Nodup := by
  intro ls
  induction ls with
  | nil => intro s h; exact h
  | cons l ls ih => intro s h; exact ih _ (foldl_set_add_nodup _ _ h)

/-- Every pair in the candidate-set fold stems from the double-loop pairs of
one of the folded bucket lists (or was present at the start). -/
theorem mem_candidate_fold {α : Type} [DecidableEq α] :
    ∀ (ls : List (List α)) (s : List (α × α)) (p : α × α),
      p ∈ ls.foldl (fun cps l =>
        (Similaritem.pairsOf l).foldl Similaritem.set_add cps) s →
      p ∈ s ∨ ∃ l ∈ ls, p ∈ Similaritem.pairsOf l := by
  intro ls
  induction ls with
  | nil => intro s p h; exact Or.inl h
  | cons l ls ih =>
      intro s p h
      rcases ih _ p h with h' | ⟨l', hl', hp⟩
      · rcases mem_foldl_set_add _ _ _ h' with h'' | h''
        · exact Or.inl h''
        · exact Or.inr ⟨l, List.mem_cons_self _ _, h''⟩
      · exact Or.inr ⟨l', List.mem_cons_of_mem _ hl', hp⟩

/-- A `setdefault`/`append` step: if every bucket list so far is a sublist of
the documents seen so far, that stays true after appending document `d`. -/
theorem add_to_bucket_sublist (seen : List String) (d : String) :
    ∀ (m : List (Nat × List String)) (k : Nat),
      (∀ kv ∈ m, kv.2.Sublist seen) →
      ∀ kv ∈ Similaritem.add_to_bucket m k d, kv.2.Sublist (seen ++ [d]) := by
  intro m
  induction m with
  | nil =>
      intro k h kv hkv
      simp only [Similaritem.add_to_bucket, List.mem_singleton] at hkv
      subst hkv
      exact (List.nil_sublist seen).append (List.Sublist.refl [d])
  | cons kv₀ m ih =>
      intro k h kv hkv
      simp only [Similaritem.add_to_bucket] at hkv
      by_cases hk : kv₀.1 = k
      · rw [if_pos hk] at hkv
        rcases List.mem_cons.mp hkv with rfl | hkv
        · exact (h kv₀ (List.mem_cons_self _ _)).append (List.Sublist.refl [d])
        · exact (h kv (List.mem_cons_of_mem _ hkv)).trans
            (List.sublist_append_left seen [d])
      · rw [if_neg hk] at hkv
        rcases List.mem_cons.mp hkv with rfl | hkv
        · exact (h kv (List.mem_cons_self _ _)).trans
            (List.sublist_append_left seen [d])
        · exact ih k (fun kv' hkv' => h kv' (List.mem_cons_of_mem _ hkv')) kv hkv

/-- Every bucket list a band's dictionary holds is a sublist (in document-map
order) of the keys of the signature map. -/
theorem build_band_buckets_sublist (pyhash : List Nat → Nat)
    (band n_rows hash_buckets : Nat) :
    ∀ (sigs : List (String × Similaritem.PySeq)) (acc : List (Nat × List String))
      (seen : List String) (m : List (Nat × List String)),
      (∀ kv ∈ acc, kv.2.Sublist seen) →
      Similaritem.build_band_buckets pyhash sigs band n_rows hash_buckets acc
        = .ok m →
      ∀ kv ∈ m, kv.2.Sublist (seen ++ sigs.map Prod.fst) := by
  intro sigs
  induction sigs with
  | nil =>
      intro acc seen m hacc hm kv hkv
      obtain rfl : acc = m := by
        simpa [Similaritem.build_band_buckets] using hm
      simpa using hacc kv hkv
  | cons p rest ih =>
      intro acc seen m hacc hm kv hkv
      simp only [Similaritem.build_band_buckets] at hm
      cases hb : Similaritem.band_bucket pyhash p.2 band n_rows hash_buckets with
      | error e =>
          rw [hb] at hm
          simp [Except.bind, bind] at hm
      | ok bucket =>
          rw [hb] at hm
          simp only [Except.bind, bind] at hm
          have hres := ih (Similaritem.add_to_bucket acc bucket p.1)
            (seen ++ [p.1]) m
            (add_to_bucket_sublist seen p.1 acc bucket hacc) hm kv hkv
          simpa [List.append_assoc] using hres

/-- A successful band hash requires a tuple signature. -/
theorem band_bucket_ok_isTuple {pyhash : List Nat → Nat}
    {s : Similaritem.PySeq} {band n_rows hash_buckets v : Nat}
    (h : Similaritem.band_bucket pyhash s band n_rows hash_buckets = .ok v) :
    s.isTuple = true := by
  by_cases ht : s.isTuple
  · exact ht
  · rw [Similaritem.band_bucket, if_neg ht] at h
    simp at h

/-- A band dictionary is built successfully only when every signature it saw
is a tuple. -/
theorem build_band_buckets_ok_tuples (pyhash : List Nat → Nat)
    (band n_rows hash_buckets : Nat) :
    ∀ (sigs : List (String × Similaritem.PySeq)) (acc m),
      Similaritem.build_band_buckets pyhash sigs band n_rows hash_buckets acc
        = .ok m →
      ∀ p ∈ sigs, p.2.isTuple = true := by
  intro sigs
  induction sigs with
  | nil => intro acc m _ p hp; exact absurd hp (List.not_mem_nil p)
  | cons q rest ih =>
      intro acc m hm p hp
      simp only [Similaritem.build_band_buckets] at hm
      cases hb : Similaritem.band_bucket pyhash q.2 band n_rows hash_buckets with
      | error e =>
          rw [hb] at hm
          simp [Except.bind, bind] at hm
      | ok bucket =>
          rw [hb] at hm
          simp only [Except.bind, bind] at hm
          rcases List.mem_cons.mp hp with rfl | hp
          · exact band_bucket_ok_isTuple hb
          · exact ih _ m hm p hp

/-- Each successfully built band dictionary in the list of all bands comes
from `build_band_buckets` on an empty accumulator. -/
theorem build_all_band_buckets_mem (pyhash : List Nat → Nat)
    (sigs : List (String × Similaritem.PySeq)) (n_rows hash_buckets : Nat) :
    ∀ (bands : List Nat) (ms),
      Similaritem.build_all_band_buckets pyhash sigs n_rows hash_buckets bands
        = .ok ms →
      ∀ m ∈ ms, ∃ band, Similaritem.build_band_buckets pyhash sigs band n_rows
        hash_buckets [] = .ok m := by
  intro bands
  induction bands with
  | nil =>
      intro ms hm m hmem
      obtain rfl : ([] : List (List (Nat × List String))) = ms := by
        simpa [Similaritem.build_all_band_buckets] using hm
      exact absurd hmem (List.not_mem_nil m)
  | cons band bands ih =>
      intro ms hm m hmem
      simp only [Similaritem.build_all_band_buckets] at hm
      cases hb : Similaritem.build_band_buckets pyhash sigs band n_rows
          hash_buckets [] with
      | error e =>
          rw [hb] at hm
          simp [Except.bind, bind] at hm
      | ok m₀ =>
          rw [hb] at hm
          simp only [Except.bind, bind] at hm
          cases hrest : Similaritem.build_all_band_buckets pyhash sigs n_rows
              hash_buckets bands with
          | error e =>
              rw [hrest] at hm
              simp [Except.bind, bind] at hm
          | ok ms₀ =>
              rw [hrest] at hm
              simp only [Except.bind, bind, pure, Except.pure] at hm
              obtain rfl : m₀ :: ms₀ = ms := by
                injection hm
              rcases List.mem_cons.mp hmem with rfl | hmem
              · exact ⟨band, hb⟩
              · exact ih ms₀ hrest m hmem

/-- C9: when LSH candidate generation succeeds, the returned candidate set
contains no duplicate pairs, and never both orientations `(A, B)` and
`(B, A)`: every bucket list preserves the signature-map order of the (unique)
document keys, so every generated pair is ordered by first occurrence. -/
theorem claim_C9_candidate_pairs (pyhash : List Nat → Nat)
    (sigs : List (String × Similaritem.PySeq))
    (n_rows n_bands hash_buckets : Nat)
    (hkeys : (sigs.map Prod.fst).Nodup) (ps : List (String × String))
    (hok : Similaritem.create_lsh_candidate_pairs pyhash sigs n_rows n_bands
      hash_buckets = .ok ps) :
    ps.Nodup ∧ ∀ a b : String, (a, b) ∈ ps → (b, a) ∉ ps := by
  unfold Similaritem.create_lsh_candidate_pairs at hok
  cases hb : Similaritem.build_all_band_buckets pyhash sigs n_rows hash_buckets
      (List.range n_bands) with
  | error e =>
      rw [hb] at hok
      simp [Except.bind, bind] at hok
  | ok ms =>
      rw [hb] at hok
      simp only [Except.bind, bind, pure, Except.pure] at hok
      obtain rfl : ((ms.map (fun m => (m.filter
            (fun kv => 1 < kv.2.length)).map (fun kv => kv.2))).flatten).foldl
            (fun cps l => (Similaritem.pairsOf l).foldl Similaritem.set_add cps)
            [] = ps := by
        injection hok
      have hmem : ∀ q ∈ (((ms.map (fun m => (m.filter
            (fun kv => 1 < kv.2.length)).map (fun kv => kv.2))).flatten).foldl
            (fun cps l => (Similaritem.pairsOf l).foldl Similaritem.set_add cps)
            ([] : List (String × String))),
          q ∈ Similaritem.pairsOf (sigs.map Prod.fst) := by
        intro q hq
        rcases mem_candidate_fold _ _ _ hq with h | ⟨l, hl, hp⟩
        · exact absurd h (List.not_mem_nil q)
        · rcases List.mem_flatten.mp hl with ⟨cl, hcl, hlcl⟩
          rcases List.mem_map.mp hcl with ⟨m, hm, rfl⟩
          rcases List.mem_map.mp hlcl with ⟨kv, hkv, rfl⟩
          have hkvm : kv ∈ m := List.mem_of_mem_filter hkv
          obtain ⟨band, hbm⟩ := build_all_band_buckets_mem pyhash sigs n_rows
            hash_buckets (List.range n_bands) ms hb m hm
          have hsub := build_band_buckets_sublist pyhash band n_rows
            hash_buckets sigs [] [] m (by intro kv' hkv'; simp at hkv') hbm
            kv hkvm
          exact pairsOf_mono (by simpa using hsub) q hp
      refine ⟨candidate_fold_nodup _ _ List.nodup_nil, ?_⟩
      intro a b hab hba
      exact pairsOf_asymm hkeys (hmem _ hab) (hmem _ hba)

/-- Witness for C9 at a concrete input: two documents with equal one-band
signatures share a bucket, and the candidate set is exactly `[("A", "B")]`. -/
theorem claim_C9_candidate_pairs_witness :
    (([("A", (⟨true, [1]⟩ : Similaritem.PySeq)),
        ("B", ⟨true, [1]⟩)].map Prod.fst).Nodup)
    ∧ Similaritem.create_lsh_candidate_pairs (fun (_ : List Nat) => (0 : Nat))
        [("A", ⟨true, [1]⟩), ("B", ⟨true, [1]⟩)] 1 1 1 = .ok [("A", "B")]
    ∧ ([("A", "B")] : List (String × String)).Nodup
    ∧ ∀ a b : String, (a, b) ∈ ([("A", "B")] : List (String × String)) →
        (b, a) ∉ ([("A", "B")] : List (String × String)) := by
  have hkeys : ([("A", (⟨true, [1]⟩ : Similaritem.PySeq)),
      ("B", ⟨true, [1]⟩)].map Prod.fst).Nodup := by decide
  have hok : Similaritem.create_lsh_candidate_pairs (fun (_ : List Nat) => (0 : Nat))
      [("A", ⟨true, [1]⟩), ("B", ⟨true, [1]⟩)] 1 1 1 = .ok [("A", "B")] := by
    rfl
  have hc := claim_C9_candidate_pairs (fun (_ : List Nat) => (0 : Nat))
    [("A", ⟨true, [1]⟩), ("B", ⟨true, [1]⟩)] 1 1 1 hkeys [("A", "B")] hok
  exact ⟨hkeys, hok, hc.1, hc.2⟩

/-! ## Claim C10 -/

/-- The position-agreement loop succeeds whenever the second signature is at
least as long as the first (the loop bound). -/
theorem count_equal_ok_of_le :
    ∀ (a b : List Nat), a.length ≤ b.length →
      ∃ c, Similaritem.count_equal a b = .ok c := by
  intro a
  induction a with
  | nil => intro b h; exact ⟨0, rfl⟩
  | cons x xs ih =>
      intro b h
      cases b with
      | nil => simp at h
      | cons y ys =>
          obtain ⟨c, hc⟩ := ih ys (by simpa using h)
          refine ⟨if x = y then c + 1 else c, ?_⟩
          simp only [Similaritem.count_equal, hc, Except.map]

/-- C10: under the precondition that each candidate pair's two signatures are
present, the first is nonempty, and both have equal length, the comparator
raises nothing — no `ZeroDivisionError` from the agreement fraction and no
`IndexError` from indexing the second signature with the first signature's
length as the loop bound. -/
theorem claim_C10_check_safety (pairs : List (String × String))
    (sigs : List (String × Similaritem.PySeq)) (θ : ℚ)
    (h : ∀ p ∈ pairs, ∃ sa sb : Similaritem.PySeq,
      Similaritem.pylookup sigs p.1 = .ok sa
      ∧ Similaritem.pylookup sigs p.2 = .ok sb
      ∧ sa.vals ≠ [] ∧ sa.vals.length = sb.vals.length) :
    ∃ out, Similaritem.check_signature_simularity pairs sigs θ = .ok out := by
  induction pairs with
  | nil => exact ⟨[], rfl⟩
  | cons p rest ih =>
      obtain ⟨sa, sb, hsa, hsb, hne, hlen⟩ := h p (List.mem_cons_self p rest)
      obtain ⟨out, hout⟩ := ih (fun q hq => h q (List.mem_cons_of_mem p hq))
      obtain ⟨c, hc⟩ := count_equal_ok_of_le sa.vals sb.vals (le_of_eq hlen)
      have hlen0 : ¬ (sa.vals.length = 0) := by
        intro h0
        exact hne (List.length_eq_zero.mp h0)
      refine ⟨if ((c : ℚ) / (sa.vals.length : ℚ)) ≥ θ then p :: out else out, ?_⟩
      simp only [Similaritem.check_signature_simularity, hsa, hsb, hc, hout,
        Except.bind, bind, pure, Except.pure, if_neg hlen0]

/-- Witness for C10 at a concrete input: one pair, both signatures present,
nonempty and of equal length. -/
theorem claim_C10_check_safety_witness :
    (∀ p ∈ [("A", "B")], ∃ sa sb : Similaritem.PySeq,
      Similaritem.pylookup
        [("A", ⟨true, [1]⟩), ("B", ⟨false, [2]⟩)] p.1 = .ok sa
      ∧ Similaritem.pylookup
        [("A", ⟨true, [1]⟩), ("B", ⟨false, [2]⟩)] p.2 = .ok sb
      ∧ sa.vals ≠ [] ∧ sa.vals.length = sb.vals.length)
    ∧ ∃ out, Similaritem.check_signature_simularity [("A", "B")]
        [("A", ⟨true, [1]⟩), ("B", ⟨false, [2]⟩)] (1 / 2) = .ok out := by
  have hpre : ∀ p ∈ [("A", "B")], ∃ sa sb : Similaritem.PySeq,
      Similaritem.pylookup
        [("A", ⟨true, [1]⟩), ("B", ⟨false, [2]⟩)] p.1 = .ok sa
      ∧ Similaritem.pylookup
        [("A", ⟨true, [1]⟩), ("B", ⟨false, [2]⟩)] p.2 = .ok sb
      ∧ sa.vals ≠ [] ∧ sa.vals.length = sb.vals.length := by
    intro p hp
    rcases List.mem_singleton.mp hp with rfl
    exact ⟨⟨true, [1]⟩, ⟨false, [2]⟩, rfl, rfl, by simp, rfl⟩
  exact ⟨hpre, claim_C10_check_safety [("A", "B")]
    [("A", ⟨true, [1]⟩), ("B", ⟨false, [2]⟩)] (1 / 2) hpre⟩

/-! ## Claim C8 -/

/-- `getD` of a `zipWith`, in terms of the `getD` of its two inputs. -/
theorem zipWith_getD {α β γ : Type} (g : α → β → γ) (da : α) (db : β) (dc : γ) :
    ∀ (l₁ : List α) (l₂ : List β) (i : Nat), i < l₁.length → i < l₂.length →
      (List.zipWith g l₁ l₂).getD i dc = g (l₁.getD i da) (l₂.getD i db) := by
  intro l₁
  induction l₁ with
  | nil => intro l₂ i h₁ h₂; exact absurd h₁ (by simp)
  | cons a l₁ ih =>
      intro l₂ i h₁ h₂
      cases l₂ with
      | nil => exact absurd h₂ (by simp)
      | cons b l₂ =>
          cases i with
          | zero => rfl
          | succ i =>
              simp only [List.zipWith_cons_cons, List.getD_cons_succ]
              exact ih l₂ i (by simpa using h₁) (by simpa using h₂)

/-- The signature fold keeps the length of the hash-function family. -/
theorem minhash_fold_length (funcs : List (Nat → Nat)) :
    ∀ (S : List Nat) (init : List Nat), init.length = funcs.length →
      (S.foldl (fun sig h => List.zipWith (fun f v => min (f h) v) funcs sig)
        init).length = funcs.length := by
  intro S
  induction S with
  | nil => intro init h; exact h
  | cons x S ih =>
      intro init h
      simp only [List.foldl_cons]
      exact ih _ (by rw [List.length_zipWith, h]; omega)

/-- Pointwise view of the signature fold: slot `i` of the fold of zipped
minimum steps is the scalar minimum fold of the `i`-th hash function. -/
theorem minhash_fold_getD (funcs : List (Nat → Nat)) :
    ∀ (S : List Nat) (init : List Nat) (i : Nat), init.length = funcs.length →
      i < funcs.length →
      (S.foldl (fun sig h => List.zipWith (fun f v => min (f h) v) funcs sig)
          init).getD i 0
        = S.foldl (fun v h => min ((funcs.getD i (fun y => y)) h) v)
            (init.getD i 0) := by
  intro S
  induction S with
  | nil => intro init i h hi; rfl
  | cons x S ih =>
      intro init i h hi
      simp only [List.foldl_cons]
      rw [ih _ i (by rw [List.length_zipWith, h]; omega) hi,
        zipWith_getD (fun f v => min (f x) v) (fun y => y) 0 0 funcs init i hi
          (by omega)]

/-- A fold of minimum steps never rises above its starting value. -/
theorem foldl_min_le_init (f : Nat → Nat) :
    ∀ (S : List Nat) (a : Nat), S.foldl (fun v h => min (f h) v) a ≤ a := by
  intro S
  induction S with
  | nil => intro a; exact le_refl a
  | cons y S ih =>
      intro a
      simp only [List.foldl_cons]
      exact le_trans (ih _) (min_le_right _ _)

/-- A fold of minimum steps is below the image of every folded element. -/
theorem foldl_min_le_mem (f : Nat → Nat) :
    ∀ (S : List Nat) (a x : Nat), x ∈ S →
      S.foldl (fun v h => min (f h) v) a ≤ f x := by
  intro S
  induction S with
  | nil => intro a x hx; exact absurd hx (List.not_mem_nil x)
  | cons y S ih =>
      intro a x hx
      simp only [List.foldl_cons]
      rcases List.mem_cons.mp hx with rfl | hx
      · exact le_trans (foldl_min_le_init f S _) (min_le_left _ _)
      · exact ih _ x hx

/-- A fold of minimum steps is its starting value or the image of some folded
element. -/
theorem foldl_min_cases (f : Nat → Nat) :
    ∀ (S : List Nat) (a : Nat),
      S.foldl (fun v h => min (f h) v) a = a
      ∨ ∃ x ∈ S, S.foldl (fun v h => min (f h) v) a = f x := by
  intro S
  induction S with
  | nil => intro a; exact Or.inl rfl
  | cons y S ih =>
      intro a
      simp only [List.foldl_cons]
      rcases ih (min (f y) a) with h | ⟨x, hx, h⟩
      · rcases le_total (f y) a with hya | hya
        · exact Or.inr ⟨y, List.mem_cons_self y S, by rw [h, min_eq_left hya]⟩
        · exact Or.inl (by rw [h, min_eq_right hya])
      · exact Or.inr ⟨x, List.mem_cons_of_mem y hx, h⟩

/-- C8: `create_min_hash_signature` returns one slot per hash function; an
empty hashed-shingle set yields the all-`sys.maxsize` signature, and for a
nonempty set (whose hash values stay below the sentinel, as the pipeline's
modulus guarantees) slot `i` holds exactly the minimum of the `i`-th hash
function over the set. -/
theorem claim_C8_minhash_signature (hashed_shingles : List Nat)
    (hash_funcs : List (Nat → Nat))
    (hbound : ∀ f ∈ hash_funcs, ∀ x ∈ hashed_shingles,
      f x ≤ Similaritem.sysMaxsize) :
    ((Similaritem.create_min_hash_signature hashed_shingles hash_funcs).vals.length
      = hash_funcs.length)
    ∧ (hashed_shingles = [] →
        ∀ v ∈ (Similaritem.create_min_hash_signature hashed_shingles
          hash_funcs).vals, v = Similaritem.sysMaxsize)
    ∧ (hashed_shingles ≠ [] →
        ∀ i, i < hash_funcs.length →
          (∀ x ∈ hashed_shingles,
            (Similaritem.create_min_hash_signature hashed_shingles
                hash_funcs).vals.getD i 0
              ≤ (hash_funcs.getD i (fun y => y)) x)
          ∧ ∃ x ∈ hashed_shingles,
            (Similaritem.create_min_hash_signature hashed_shingles
                hash_funcs).vals.getD i 0
              = (hash_funcs.getD i (fun y => y)) x) := by
  refine ⟨?_, ?_, ?_⟩
  · exact minhash_fold_length hash_funcs hashed_shingles _
      (List.length_replicate _ _)
  · rintro rfl v hv
    exact List.eq_of_mem_replicate hv
  · intro hne i hi
    have hrepLen : i < (List.replicate hash_funcs.length
        Similaritem.sysMaxsize).length := by
      simpa using hi
    have hrep : (List.replicate hash_funcs.length
        Similaritem.sysMaxsize).getD i 0 = Similaritem.sysMaxsize := by
      rw [List.getD_eq_getElem _ _ hrepLen, List.getElem_replicate]
    have hval : (Similaritem.create_min_hash_signature hashed_shingles
        hash_funcs).vals.getD i 0
        = hashed_shingles.foldl
            (fun v h => min ((hash_funcs.getD i (fun y => y)) h) v)
            Similaritem.sysMaxsize := by
      rw [show (Similaritem.create_min_hash_signature hashed_shingles
            hash_funcs).vals
          = hashed_shingles.foldl
              (fun sig h => List.zipWith (fun f v => min (f h) v) hash_funcs sig)
              (List.replicate hash_funcs.length Similaritem.sysMaxsize) from rfl,
        minhash_fold_getD hash_funcs hashed_shingles _ i
          (List.length_replicate _ _) hi, hrep]
    have hfmem : hash_funcs.getD i (fun y => y) ∈ hash_funcs := by
      rw [List.getD_eq_getElem _ _ hi]
      exact List.getElem_mem hi
    constructor
    · intro x hx
      rw [hval]
      exact foldl_min_le_mem _ hashed_shingles _ x hx
    · rcases foldl_min_cases (hash_funcs.getD i (fun y => y)) hashed_shingles
          Similaritem.sysMaxsize with h | ⟨x, hx, h⟩
      · obtain ⟨x₀, hx₀⟩ := List.exists_mem_of_ne_nil hashed_shingles hne
        refine ⟨x₀, hx₀, le_antisymm ?_ ?_⟩
        · rw [hval]
          exact foldl_min_le_mem _ hashed_shingles _ x₀ hx₀
        · rw [hval, h]
          exact hbound _ hfmem x₀ hx₀
      · exact ⟨x, hx, by rw [hval, h]⟩

/-- Witness for C8 at a concrete input: the family with the single constant-0
function over the hashed shingles `[7, 3]`. -/
theorem claim_C8_minhash_signature_witness :
    (∀ f ∈ [fun (_ : Nat) => (0 : Nat)], ∀ x ∈ [7, 3], f x ≤ Similaritem.sysMaxsize)
    ∧ (((Similaritem.create_min_hash_signature [7, 3]
          [fun (_ : Nat) => (0 : Nat)]).vals.length = [fun (_ : Nat) => (0 : Nat)].length)
      ∧ (([7, 3] : List Nat) = [] →
          ∀ v ∈ (Similaritem.create_min_hash_signature [7, 3]
            [fun (_ : Nat) => (0 : Nat)]).vals, v = Similaritem.sysMaxsize)
      ∧ (([7, 3] : List Nat) ≠ [] →
          ∀ i, i < [fun (_ : Nat) => (0 : Nat)].length →
            (∀ x ∈ [7, 3],
              (Similaritem.create_min_hash_signature [7, 3]
                  [fun (_ : Nat) => (0 : Nat)]).vals.getD i 0
                ≤ ([fun (_ : Nat) => (0 : Nat)].getD i (fun y => y)) x)
            ∧ ∃ x ∈ [7, 3],
              (Similaritem.create_min_hash_signature [7, 3]
                  [fun (_ : Nat) => (0 : Nat)]).vals.getD i 0
                = ([fun (_ : Nat) => (0 : Nat)].getD i (fun y => y)) x)) := by
  have hb : ∀ f ∈ [fun (_ : Nat) => (0 : Nat)], ∀ x ∈ [7, 3],
      f x ≤ Similaritem.sysMaxsize := by
    intro f hf x hx
    rcases List.mem_singleton.mp hf with rfl
    exact Nat.zero_le _
  exact ⟨hb, claim_C8_minhash_signature [7, 3] [fun (_ : Nat) => (0 : Nat)] hb⟩

/-! ## Claim C7 -/

/-- C7 counterexample: `hash_shingles` reduces with the bitmask `&`, not a
modulo, and `h & M ≤ M` with equality attained: a string whose 64-bit hash
value is exactly `M = 4294967291` (a value the unspecified builtin hash can
take) is mapped to `M` itself, which is not in the half-open range `[0, M)`. -/
theorem claim_C7_counterexample :
    Similaritem.hash_shingles (fun _ => 4294967291) ["a"]
        Similaritem.HASH_BUCKETS = [4294967291]
    ∧ ¬ (4294967291 < Similaritem.HASH_BUCKETS) := by
  constructor
  · rfl
  · decide

/-- C7 amended: every element of `hash_shingles shingles M` lies in the CLOSED
range `[0, M]` — the bitmask can return `M` itself (see the counterexample),
so the half-open range of the claim is off by exactly that endpoint. -/
theorem claim_C7_amended (strhash : String → Nat) (shingles : List String)
    (x : Nat) (hx : x ∈ Similaritem.hash_shingles strhash shingles
      Similaritem.HASH_BUCKETS) :
    x ≤ Similaritem.HASH_BUCKETS := by
  rcases List.mem_map.mp hx with ⟨s, _, rfl⟩
  exact Nat.and_le_right

/-- Witness for the amended C7 at a concrete input. -/
theorem claim_C7_amended_witness :
    (1 ∈ Similaritem.hash_shingles (fun _ => 1) ["a"] Similaritem.HASH_BUCKETS)
    ∧ 1 ≤ Similaritem.HASH_BUCKETS := by
  have h : 1 ∈ Similaritem.hash_shingles (fun _ => 1) ["a"]
      Similaritem.HASH_BUCKETS := by decide
  exact ⟨h, claim_C7_amended _ _ _ h⟩

/-! ## Claim C2 -/

/-- `generate_hash_functions` returns one function per draw. -/
theorem generate_hash_functions_length (draws : List (Nat × Nat)) (M : Nat) :
    (Similaritem.generate_hash_functions draws M).length = draws.length := by
  unfold Similaritem.generate_hash_functions
  cases h : draws.getLast? with
  | none =>
      obtain rfl : draws = [] := List.getLast?_eq_none_iff.mp h
      rfl
  | some ab => simp

/-- A signature compared with itself agrees at every position. -/
theorem count_equal_self :
    ∀ l : List Nat, Similaritem.count_equal l l = .ok l.length := by
  intro l
  induction l with
  | nil => rfl
  | cons x xs ih => simp [Similaritem.count_equal, ih, Except.map]

/-- Pointwise different signatures agree at no position. -/
theorem count_equal_zero :
    ∀ (a b : List Nat), a.length ≤ b.length →
      (∀ i, i < a.length → a.getD i 0 ≠ b.getD i 0) →
      Similaritem.count_equal a b = .ok 0 := by
  intro a
  induction a with
  | nil => intro b _ _; rfl
  | cons x xs ih =>
      intro b hlen hne
      cases b with
      | nil => simp at hlen
      | cons y ys =>
          have hxy : x ≠ y := by
            have h0 := hne 0 (by simp)
            simpa using h0
          have hrest := ih ys (by simpa using hlen) (fun i hi => by
            have hi1 := hne (i + 1) (by simpa using hi)
            simpa using hi1)
          simp [Similaritem.count_equal, hrest, Except.map, hxy]

/-- Every slot of the signature of a NONEMPTY hashed-shingle set under the
pipeline's hash family is strictly below the `sys.maxsize` sentinel, because
the affine hash values are reduced modulo `HASH_BUCKETS < sys.maxsize`. -/
theorem minhash_entry_lt_sentinel (draws : List (Nat × Nat)) (S : List Nat)
    (hdraws : draws ≠ []) (hS : S ≠ []) (i : Nat)
    (hi : i < (Similaritem.generate_hash_functions draws
      Similaritem.HASH_BUCKETS).length) :
    (Similaritem.create_min_hash_signature S
        (Similaritem.generate_hash_functions draws
          Similaritem.HASH_BUCKETS)).vals.getD i 0 < Similaritem.sysMaxsize := by
  obtain ⟨x₀, hx₀⟩ := List.exists_mem_of_ne_nil S hS
  set funcs := Similaritem.generate_hash_functions draws Similaritem.HASH_BUCKETS
    with hfuncs
  have hrepLen : i < (List.replicate funcs.length
      Similaritem.sysMaxsize).length := by simpa using hi
  have hrep : (List.replicate funcs.length
      Similaritem.sysMaxsize).getD i 0 = Similaritem.sysMaxsize := by
    rw [List.getD_eq_getElem _ _ hrepLen, List.getElem_replicate]
  have hval : (Similaritem.create_min_hash_signature S funcs).vals.getD i 0
      = S.foldl (fun v h => min ((funcs.getD i (fun y => y)) h) v)
          Similaritem.sysMaxsize := by
    rw [show (Similaritem.create_min_hash_signature S funcs).vals
        = S.foldl
            (fun sig h => List.zipWith (fun f v => min (f h) v) funcs sig)
            (List.replicate funcs.length Similaritem.sysMaxsize) from rfl,
      minhash_fold_getD funcs S _ i (List.length_replicate _ _) hi, hrep]
  have hfx : (funcs.getD i (fun y => y)) x₀ < Similaritem.sysMaxsize := by
    cases hlast : draws.getLast? with
    | none => exact absurd (List.getLast?_eq_none_iff.mp hlast) hdraws
    | some ab =>
        have hfuncs_eq : funcs = draws.map
            (fun _ => fun x => (ab.1 * x + ab.2) % Similaritem.HASH_BUCKETS) := by
          rw [hfuncs, Similaritem.generate_hash_functions, hlast]
        have hi' : i < (draws.map
            (fun _ => fun x => (ab.1 * x + ab.2) % Similaritem.HASH_BUCKETS)).length := by
          rw [← hfuncs_eq]
          exact hi
        have hgetD : funcs.getD i (fun y => y)
            = fun x => (ab.1 * x + ab.2) % Similaritem.HASH_BUCKETS := by
          rw [hfuncs_eq, List.getD_eq_getElem _ _ hi', List.getElem_map]
        rw [hgetD]
        have hmod : (ab.1 * x₀ + ab.2) % Similaritem.HASH_BUCKETS
            < Similaritem.HASH_BUCKETS :=
          Nat.mod_lt _ (by norm_num [Similaritem.HASH_BUCKETS,
            Similaritem.L_MAX_32_BIT_INT])
        exact lt_trans hmod (by norm_num [Similaritem.HASH_BUCKETS,
          Similaritem.L_MAX_32_BIT_INT, Similaritem.sysMaxsize])
  rw [hval]
  exact lt_of_le_of_lt
    (foldl_min_le_mem (funcs.getD i (fun y => y)) S Similaritem.sysMaxsize x₀ hx₀)
    hfx

/-- When `build_all_band_buckets` succeeds, every requested band's dictionary
was built successfully. -/
theorem build_all_band_buckets_ok_each (pyhash : List Nat → Nat)
    (sigs : List (String × Similaritem.PySeq)) (n_rows hash_buckets : Nat) :
    ∀ (bands : List Nat) ms,
      Similaritem.build_all_band_buckets pyhash sigs n_rows hash_buckets bands
        = .ok ms →
      ∀ band ∈ bands, ∃ m, Similaritem.build_band_buckets pyhash sigs band
        n_rows hash_buckets [] = .ok m := by
  intro bands
  induction bands with
  | nil => intro ms _ band hband; exact absurd hband (List.not_mem_nil band)
  | cons band₀ bands ih =>
      intro ms hm band hband
      simp only [Similaritem.build_all_band_buckets] at hm
      cases hb : Similaritem.build_band_buckets pyhash sigs band₀ n_rows
          hash_buckets [] with
      | error e =>
          rw [hb] at hm
          simp [Except.bind, bind] at hm
      | ok m₀ =>
          rw [hb] at hm
          simp only [Except.bind, bind] at hm
          cases hrest : Similaritem.build_all_band_buckets pyhash sigs n_rows
              hash_buckets bands with
          | error e =>
              rw [hrest] at hm
              simp [Except.bind, bind] at hm
          | ok ms₀ =>
              rcases List.mem_cons.mp hband with rfl | hband
              · exact ⟨m₀, hb⟩
              · exact ih ms₀ hrest band hband

/-- With at least one band, LSH candidate generation raises `TypeError` as
soon as any document's signature is a Python list (not a tuple). -/
theorem create_lsh_error_of_list_signature (pyhash : List Nat → Nat)
    (sigs : List (String × Similaritem.PySeq))
    (n_rows n_bands hash_buckets : Nat) (hbands : 0 < n_bands)
    (p : String × Similaritem.PySeq) (hp : p ∈ sigs)
    (ht : p.2.isTuple = false) :
    ∃ e, Similaritem.create_lsh_candidate_pairs pyhash sigs n_rows n_bands
      hash_buckets = .error e := by
  cases hres : Similaritem.create_lsh_candidate_pairs pyhash sigs n_rows
      n_bands hash_buckets with
  | error e => exact ⟨e, rfl⟩
  | ok ps =>
      exfalso
      unfold Similaritem.create_lsh_candidate_pairs at hres
      cases hb : Similaritem.build_all_band_buckets pyhash sigs n_rows
          hash_buckets (List.range n_bands) with
      | error e =>
          rw [hb] at hres
          simp [Except.bind, bind] at hres
      | ok ms =>
          obtain ⟨m, hm⟩ := build_all_band_buckets_ok_each pyhash sigs n_rows
            hash_buckets (List.range n_bands) ms hb 0
            (List.mem_range.mpr hbands)
          have htup := build_band_buckets_ok_tuples pyhash 0 n_rows
            hash_buckets sigs [] m hm p hp
          rw [ht] at htup
          exact Bool.false_ne_true htup

/-- C2 counterexample: in a corpus of documents with EMPTY shingle sets the
claim fails twice over.  First, two empty-shingle documents get identical
all-sentinel signatures, so their agreement fraction is 1, not 0: the
comparator keeps the pair even at threshold 1.  Second, the pipeline does not
complete: the empty signature is a Python list (the `tuple(...)` conversion
happens only inside the fold over shingles), and hashing its band slice in
`create_lsh_candidate_pairs` raises `TypeError`. -/
theorem claim_C2_counterexample :
    Similaritem.check_signature_simularity [("A", "C")]
        [("A", Similaritem.create_min_hash_signature []
            (Similaritem.generate_hash_functions [(1, 1)]
              Similaritem.HASH_BUCKETS)),
         ("C", Similaritem.create_min_hash_signature []
            (Similaritem.generate_hash_functions [(1, 1)]
              Similaritem.HASH_BUCKETS))] 1
      = .ok [("A", "C")]
    ∧ ∃ e, Similaritem.create_lsh_candidate_pairs
        (fun (_ : List Nat) => (0 : Nat))
        [("A", Similaritem.create_min_hash_signature []
            (Similaritem.generate_hash_functions [(1, 1)]
              Similaritem.HASH_BUCKETS)),
         ("B", Similaritem.create_min_hash_signature [0]
            (Similaritem.generate_hash_functions [(1, 1)]
              Similaritem.HASH_BUCKETS))]
        1 1 Similaritem.HASH_BUCKETS = .error e := by
  constructor
  · with_unfolding_all rfl
  · exact ⟨"TypeError: unhashable type: list", by with_unfolding_all rfl⟩

/-- C2 amended: for a corpus holding an empty-shingle document, the shingling,
hashing and signature stages complete, and every signature-agreement score
pairing the empty document with a NONEMPTY document is 0 (the pair is dropped
at every positive threshold); but the pair of two empty-shingle documents has
agreement 1 (it is kept even at threshold 1), and the LSH banding stage raises
`TypeError` on the list-typed empty signature whenever there is at least one
band, so the pipeline does not complete without error. -/
theorem claim_C2_amended (draws : List (Nat × Nat)) (S : List Nat)
    (pyhash : List Nat → Nat) (n_rows n_bands : Nat) (θ : ℚ)
    (hdraws : draws ≠ []) (hS : S ≠ []) (hθ0 : 0 < θ) (hθ1 : θ ≤ 1)
    (hbands : 0 < n_bands) :
    (Similaritem.check_signature_simularity [("A", "B")]
        [("A", Similaritem.create_min_hash_signature []
            (Similaritem.generate_hash_functions draws
              Similaritem.HASH_BUCKETS)),
         ("B", Similaritem.create_min_hash_signature S
            (Similaritem.generate_hash_functions draws
              Similaritem.HASH_BUCKETS))] θ
      = .ok [])
    ∧ (Similaritem.check_signature_simularity [("A", "C")]
        [("A", Similaritem.create_min_hash_signature []
            (Similaritem.generate_hash_functions draws
              Similaritem.HASH_BUCKETS)),
         ("C", Similaritem.create_min_hash_signature []
            (Similaritem.generate_hash_functions draws
              Similaritem.HASH_BUCKETS))] θ
      = .ok [("A", "C")])
    ∧ (∃ e, Similaritem.create_lsh_candidate_pairs pyhash
        [("A", Similaritem.create_min_hash_signature []
            (Similaritem.generate_hash_functions draws
              Similaritem.HASH_BUCKETS)),
         ("B", Similaritem.create_min_hash_signature S
            (Similaritem.generate_hash_functions draws
              Similaritem.HASH_BUCKETS))]
        n_rows n_bands Similaritem.HASH_BUCKETS = .error e) := by
  set funcs := Similaritem.generate_hash_functions draws Similaritem.HASH_BUCKETS
    with hfuncs
  have hn0 : funcs.length ≠ 0 := by
    rw [hfuncs, generate_hash_functions_length]
    intro h
    exact hdraws (List.length_eq_zero.mp h)
  have hE : (Similaritem.create_min_hash_signature [] funcs).vals
      = List.replicate funcs.length Similaritem.sysMaxsize := rfl
  have hElen : (Similaritem.create_min_hash_signature [] funcs).vals.length
      = funcs.length := by rw [hE, List.length_replicate]
  have hElen0 : ¬ ((Similaritem.create_min_hash_signature [] funcs).vals.length
      = 0) := by rw [hElen]; exact hn0
  have hBlen : (Similaritem.create_min_hash_signature S funcs).vals.length
      = funcs.length :=
    minhash_fold_length funcs S _ (List.length_replicate _ _)
  refine ⟨?_, ?_, ?_⟩
  · have hcount : Similaritem.count_equal
        (Similaritem.create_min_hash_signature [] funcs).vals
        (Similaritem.create_min_hash_signature S funcs).vals = .ok 0 := by
      refine count_equal_zero _ _ (by rw [hElen, hBlen]) ?_
      intro i hi
      have hi' : i < funcs.length := by rwa [hElen] at hi
      have hEi : (Similaritem.create_min_hash_signature [] funcs).vals.getD i 0
          = Similaritem.sysMaxsize := by
        rw [hE, List.getD_eq_getElem _ _ (by simpa using hi'),
          List.getElem_replicate]
      have hBi := minhash_entry_lt_sentinel draws S hdraws hS i hi'
      rw [hEi]
      exact (Nat.lt_iff_le_and_ne.mp hBi).2.symm
    have hfrac : ¬ ((((0 : Nat) : ℚ)
        / ((Similaritem.create_min_hash_signature [] funcs).vals.length : ℚ))
        ≥ θ) := by
      rw [Nat.cast_zero, zero_div]
      exact not_le.mpr hθ0
    have hAA : ("A" == "A") = true := by decide
    have hBA : ("B" == "A") = false := by decide
    have hAB : ("A" == "B") = false := by decide
    have hBB : ("B" == "B") = true := by decide
    simp only [Similaritem.check_signature_simularity, Similaritem.pylookup,
      List.find?, hAA, hBA, hAB, hBB, Except.bind, bind, pure, Except.pure,
      hcount, if_neg hElen0, if_neg hfrac]
  · have hcount : Similaritem.count_equal
        (Similaritem.create_min_hash_signature [] funcs).vals
        (Similaritem.create_min_hash_signature [] funcs).vals
        = .ok funcs.length := by
      rw [count_equal_self, hElen]
    have hfrac : (((funcs.length : Nat) : ℚ)
        / ((Similaritem.create_min_hash_signature [] funcs).vals.length : ℚ))
        ≥ θ := by
      rw [hElen, div_self (Nat.cast_ne_zero.mpr hn0)]
      exact hθ1
    have hAA : ("A" == "A") = true := by decide
    have hCA : ("C" == "A") = false := by decide
    have hAC : ("A" == "C") = false := by decide
    have hCC : ("C" == "C") = true := by decide
    simp only [Similaritem.check_signature_simularity, Similaritem.pylookup,
      List.find?, hAA, hCA, hAC, hCC, Except.bind, bind, pure, Except.pure,
      hcount, if_neg hElen0, if_pos hfrac]
  · refine create_lsh_error_of_list_signature pyhash _ n_rows n_bands
      Similaritem.HASH_BUCKETS hbands
      ("A", Similaritem.create_min_hash_signature [] funcs)
      (List.mem_cons_self _ _) rfl

/-- Witness for the amended C2 at a concrete input: one draw, one hashed
shingle, threshold 1/2, one band of three rows. -/
theorem claim_C2_amended_witness :
    Similaritem.check_signature_simularity [("A", "B")]
        [("A", Similaritem.create_min_hash_signature []
            (Similaritem.generate_hash_functions [(1, 1)]
              Similaritem.HASH_BUCKETS)),
         ("B", Similaritem.create_min_hash_signature [0]
            (Similaritem.generate_hash_functions [(1, 1)]
              Similaritem.HASH_BUCKETS))] (1 / 2)
      = .ok []
    ∧ ∃ e, Similaritem.create_lsh_candidate_pairs
        (fun (_ : List Nat) => (0 : Nat))
        [("A", Similaritem.create_min_hash_signature []
            (Similaritem.generate_hash_functions [(1, 1)]
              Similaritem.HASH_BUCKETS)),
         ("B", Similaritem.create_min_hash_signature [0]
            (Similaritem.generate_hash_functions [(1, 1)]
              Similaritem.HASH_BUCKETS))]
        3 1 Similaritem.HASH_BUCKETS = .error e := by
  have h := claim_C2_amended [(1, 1)] [0] (fun (_ : List Nat) => (0 : Nat))
    3 1 (1 / 2) (by decide) (by decide) (by with_unfolding_all decide)
    (by with_unfolding_all decide) (by decide)
  exact ⟨h.1, h.2.2⟩

end Similaritem
